import Mathlib

/-!
Verification of the document chunking and retrieval-augmented prompt
assembly pipeline of the amazon-bedrock-workshop repository.

The notebooks delegate chunking, indexing, retrieval and prompt templating
to vendor SDK functions whose code is not part of the repository; the
specification describes that pipeline as a self-contained design.  The
definitions below embed that design (each such definition is marked
Modelled from the spec) together with the two request-building functions
that do appear verbatim in the notebook source (retrieveAndGenerate and
retrieveAndGenerateWithTemplate).
-/

namespace RAG

/-- Error taxonomy of the pipeline (spec section 7): configuration errors,
template errors and embedding-dimension mismatches. -/
inductive PipelineError where
  | configurationError
  | templateError
  | dimensionMismatch
deriving DecidableEq, Repr

/-- Modelled from the spec: the chunker of section 4.1, whose code
(RecursiveCharacterTextSplitter) is not in the repository.  Section 8 fixes
exact sliding-window semantics: emit a window of chunk_size characters,
advance by chunk_size - overlap, and let the final chunk be whatever
remains once the text fits in one window.  The fuel argument bounds the
recursion; the caller passes the document length, which always suffices
because every step consumes at least one character. -/
def chunkGo (size ov : Nat) : Nat → List Char → List (List Char)
  | 0, doc => [doc]
  | Nat.succ fuel, doc =>
      if doc.length ≤ size then [doc]
      else doc.take size :: chunkGo size ov fuel (doc.drop (size - ov))

/-- Modelled from the spec: chunk(document, chunk_size, overlap) of section
4.1.  The guard overlap < chunk_size fails with ConfigurationError before
any chunk is produced (infinite-loop guard). -/
def chunk (doc : List Char) (size ov : Nat) : Except PipelineError (List (List Char)) :=
  if size ≤ ov then .error .configurationError
  else .ok (chunkGo size ov doc.length doc)

/-- The last n characters of a chunk. -/
def lastN (n : Nat) (l : List Char) : List Char := l.drop (l.length - n)

/-- Re-concatenation of a chunk list with the declared overlap removed from
the front of every chunk after the first (spec section 8, round-trip). -/
def stripJoin (ov : Nat) : List (List Char) → List Char
  | [] => []
  | c :: cs => c ++ (cs.map (fun x => x.drop ov)).flatten

/-- Modelled from the spec: a Document of section 3 — identifier, full
text, metadata mapping. -/
structure Document where
  id : String
  text : List Char
  meta : List (String × String)
deriving DecidableEq, Repr

/-- Modelled from the spec: a Chunk of section 3 — substring text, ordinal
index, inherited metadata. -/
structure Chunk where
  text : List Char
  ordinal : Nat
  meta : List (String × String)
deriving DecidableEq, Repr

/-- Modelled from the spec: an IndexEntry of section 3 — chunk text,
embedding and metadata as persisted in the vector store. -/
structure IndexEntry where
  text : List Char
  emb : List Int
  meta : List (String × String)
deriving DecidableEq, Repr

/-- Modelled from the spec: the vector store, created with a declared
dimensionality (create_index(dimension, metric)); entries are kept in
ingestion order. -/
structure Store where
  dim : Nat
  entries : List IndexEntry
deriving DecidableEq, Repr

/-- Dot-product similarity (the metric the notebook creates its index
with). -/
def dot : List Int → List Int → Int
  | [], _ => 0
  | _, [] => 0
  | a :: as, b :: bs => a * b + dot as bs

/-- A retrieval candidate: chunk text, similarity score, source metadata,
and the ingestion position of the entry it came from. -/
structure Scored where
  text : List Char
  score : Int
  meta : List (String × String)
  pos : Nat
deriving DecidableEq, Repr

/-- Modelled from the spec: scoring pass of the Retriever (section 4.3) —
every stored entry is paired with its similarity to the query vector and
its ingestion position. -/
def scoreAll (qv : List Int) (entries : List IndexEntry) : List Scored :=
  entries.enum.map (fun p =>
    { text := p.2.text, score := dot qv p.2.emb, meta := p.2.meta, pos := p.1 })

/-- Ranking order of section 4.3: higher score first, ties broken by
ingestion position (stable, first-indexed wins). -/
def rankRel (a b : Scored) : Prop :=
  b.score ≤ a.score ∧ (b.score = a.score → a.pos ≤ b.pos)

instance (a b : Scored) : Decidable (rankRel a b) := by
  unfold rankRel; infer_instance

def insertScored (x : Scored) : List Scored → List Scored
  | [] => [x]
  | y :: ys => if rankRel x y then x :: y :: ys else y :: insertScored x ys

def sortScored : List Scored → List Scored
  | [] => []
  | x :: xs => insertScored x (sortScored xs)

/-- Modelled from the spec: retrieve(query_text, k, embed_fn, store) of
section 4.3 — embed the query, score every entry, sort descending with
stable ties, and return at most k results; k larger than the index size is
clamped, never an error. -/
def retrieve (q : List Char) (k : Nat) (f : List Char → List Int)
    (store : Store) : List Scored :=
  (sortScored (scoreAll (f q) store.entries)).take k

/-- Does pat occur at the head of the second list? -/
def startsWithList : List Char → List Char → Bool
  | [], _ => true
  | _ :: _, [] => false
  | p :: ps, c :: cs => p == c && startsWithList ps cs

/-- Does pat occur anywhere inside the list? -/
def containsSub (pat : List Char) : List Char → Bool
  | [] => startsWithList pat []
  | c :: cs => startsWithList pat (c :: cs) || containsSub pat cs

/-- Replace the first occurrence of pat by repl. -/
def replaceFirst (pat repl : List Char) : List Char → List Char
  | [] => []
  | c :: cs =>
      if startsWithList pat (c :: cs) then repl ++ (c :: cs).drop pat.length
      else c :: replaceFirst pat repl cs

/-- The context placeholder of the notebook template. -/
def ctxPlaceholder : List Char := "\x7bcontext\x7d".toList

/-- The question placeholder of the notebook template. -/
def questionPlaceholder : List Char := "\x7bquestion\x7d".toList

/-- Separator used to join retrieved chunk texts in retrieval order. -/
def contextSeparator : List Char := "\n\n".toList

/-- Concatenated context: each retrieved chunk text joined by the
separator, in retrieval order. -/
def contextJoin (rr : List Scored) : List Char :=
  List.intercalate contextSeparator (rr.map (fun s => s.text))

/-- Modelled from the spec: the configuration-time template validation of
section 4.4 (the PromptTemplate of the notebook) — both the context and the
question placeholder must be present, else TemplateError. -/
def validateTemplate (template : List Char) : Except PipelineError Unit :=
  if containsSub ctxPlaceholder template && containsSub questionPlaceholder template
  then .ok () else .error .templateError

/-- Modelled from the spec: assemble(template, retrieval_result, question)
of section 4.4 — validate the template, then substitute the concatenated
context and the question into it. -/
def assemble (template : List Char) (rr : List Scored) (question : List Char) :
    Except PipelineError (List Char) :=
  match validateTemplate template with
  | .error e => .error e
  | .ok _ =>
      .ok (replaceFirst questionPlaceholder question
        (replaceFirst ctxPlaceholder (contextJoin rr) template))

/-- Append one entry to the store, keeping the declared dimensionality. -/
def addEntry (s : Store) (c : Chunk) (e : List Int) : Store :=
  { dim := s.dim, entries := s.entries ++ [{ text := c.text, emb := e, meta := c.meta }] }

/-- Modelled from the spec: index(chunks, embed_fn, store) of section 4.2 —
each chunk is embedded and submitted to the store; an embedding whose
dimensionality disagrees with the declared index dimensionality fails fast
with a dimension-mismatch error before that entry is written.  Returns the
final store and the count written. -/
def writeChunks (f : List Char → List Int) :
    List Chunk → Store → Except PipelineError (Store × Nat)
  | [], s => .ok (s, 0)
  | c :: cs, s =>
      if (f c.text).length = s.dim then
        match writeChunks f cs (addEntry s c (f c.text)) with
        | .ok (s', n) => .ok (s', n + 1)
        | .error e => .error e
      else .error .dimensionMismatch

/-- Modelled from the spec: the chunking pipeline of sections 3 and 4.1 —
each text piece becomes a Chunk holding its ordinal and a copy (by value)
of the parent Document metadata mapping. -/
def chunkDocument (doc : Document) (size ov : Nat) :
    Except PipelineError (List Chunk) :=
  (chunk doc.text size ov).map (fun pieces =>
    pieces.enum.map (fun p => { text := p.2, ordinal := p.1, meta := doc.meta }))

/-- Replace the metadata of the chunk at position i, leaving every other
chunk untouched (the value-semantics counterpart of mutating the metadata
mapping of a single chunk). -/
def setChunkMeta (m : List (String × String)) : Nat → List Chunk → List Chunk
  | _, [] => []
  | 0, c :: cs => { text := c.text, ordinal := c.ordinal, meta := m } :: cs
  | Nat.succ n, c :: cs => c :: setChunkMeta m n cs

/-- Concrete fixture document used by the witnesses. -/
def fixtureDoc : Document :=
  { id := "doc", text := "AAAAABBBBBCCCCC".toList, meta := [("year", "2023")] }

/-- The chunks the pipeline produces on the fixture document. -/
def fixtureDocChunks : List Chunk :=
  (chunkGo 5 2 15 "AAAAABBBBBCCCCC".toList).enum.map (fun p =>
    { text := p.2, ordinal := p.1, meta := [("year", "2023")] })

/-- The request payload built by the notebook functions retrieveAndGenerate
and retrieveAndGenerateWithTemplate: input text, knowledge base id, model
ARN, optional custom prompt template, and the optional sessionId field. -/
structure RAGRequest where
  inputText : String
  knowledgeBaseId : String
  modelArn : String
  generationPromptTemplate : Option String
  sessionId : Option String
deriving DecidableEq, Repr

/-- The model ARN string interpolation of the notebook. -/
def mkModelArn (region_id model_id : String) : String :=
  "arn:aws:bedrock:" ++ region_id ++ "::foundation-model/" ++ model_id

/-- Python truthiness of the sessionId argument (None and the empty string
are falsy). -/
def pyTruthy : Option String → Bool
  | none => false
  | some s => !(s == "")

/-- The retrieveAndGenerate function of
1_managed-rag-kb-retrieve-generate-api.ipynb: branches on the truthiness of
sessionId and includes the sessionId field only in the truthy branch. -/
def retrieveAndGenerate (input kbId : String) (sessionId : Option String)
    (model_id region_id : String) : RAGRequest :=
  if pyTruthy sessionId then
    { inputText := input, knowledgeBaseId := kbId,
      modelArn := mkModelArn region_id model_id,
      generationPromptTemplate := none, sessionId := sessionId }
  else
    { inputText := input, knowledgeBaseId := kbId,
      modelArn := mkModelArn region_id model_id,
      generationPromptTemplate := none, sessionId := none }

/-- The retrieveAndGenerateWithTemplate function of the same notebook: as
retrieveAndGenerate but with the custom prompt template in the
generationConfiguration of both branches. -/
def retrieveAndGenerateWithTemplate (input kbId : String)
    (sessionId : Option String) (promptTemplate model_id region_id : String) :
    RAGRequest :=
  if pyTruthy sessionId then
    { inputText := input, knowledgeBaseId := kbId,
      modelArn := mkModelArn region_id model_id,
      generationPromptTemplate := some promptTemplate, sessionId := sessionId }
  else
    { inputText := input, knowledgeBaseId := kbId,
      modelArn := mkModelArn region_id model_id,
      generationPromptTemplate := some promptTemplate, sessionId := none }

/-- A request with its sessionId field removed: the rest of the payload. -/
def dropSession (r : RAGRequest) : RAGRequest :=
  { inputText := r.inputText, knowledgeBaseId := r.knowledgeBaseId,
    modelArn := r.modelArn,
    generationPromptTemplate := r.generationPromptTemplate, sessionId := none }

/-! ## Chunker theorems -/

theorem chunkGo_head (size ov fuel : Nat) (doc : List Char)
    (h : doc.length ≤ fuel + size) :
    ∃ t, chunkGo size ov fuel doc = doc.take size :: t := by
  cases fuel with
  | zero =>
      refine ⟨[], ?_⟩
      simp only [chunkGo]
      rw [List.take_of_length_le (by omega)]
  | succ fuel =>
      simp only [chunkGo]
      by_cases hle : doc.length ≤ size
      · refine ⟨[], ?_⟩
        rw [if_pos hle, List.take_of_length_le hle]
      · exact ⟨_, by rw [if_neg hle]⟩

theorem chunkGo_chain (size ov : Nat) (hov : ov < size) :
    ∀ fuel (doc : List Char), doc.length ≤ fuel + size →
      List.Chain' (fun a b => lastN ov a = b.take ov) (chunkGo size ov fuel doc) := by
  intro fuel
  induction fuel with
  | zero => intro doc _; simp [chunkGo]
  | succ fuel ih =>
      intro doc h
      simp only [chunkGo]
      by_cases hle : doc.length ≤ size
      · simp [hle]
      · rw [if_neg hle]
        have hrest : (doc.drop (size - ov)).length ≤ fuel + size := by
          rw [List.length_drop]; omega
        obtain ⟨t, ht⟩ := chunkGo_head size ov fuel (doc.drop (size - ov)) hrest
        rw [ht]
        refine List.Chain'.cons ?_ (ht ▸ ih (doc.drop (size - ov)) hrest)
        show lastN ov (doc.take size) = ((doc.drop (size - ov)).take size).take ov
        have hlen : (doc.take size).length = size := by
          rw [List.length_take]; omega
        rw [lastN, hlen, List.drop_take, List.take_take]
        have h1 : size - (size - ov) = ov := by omega
        have h2 : min ov size = ov := by omega
        rw [h1, h2]

/-- C1: for every document and every valid configuration (positive
chunk_size and overlap, overlap < chunk_size), consecutive chunks returned
by chunk overlap by exactly overlap characters: the last overlap characters
of each chunk equal the first overlap characters of its successor. -/
theorem chunk_consecutive_overlap (doc : List Char) (size ov : Nat)
    (hpos : 0 < ov) (hov : ov < size) (cs : List (List Char))
    (hcs : chunk doc size ov = .ok cs) :
    List.Chain' (fun a b => lastN ov a = b.take ov) cs := by
  rw [chunk, if_neg (by omega)] at hcs
  cases hcs
  exact chunkGo_chain size ov hov doc.length doc (by omega)

theorem chunk_consecutive_overlap_witness :
    0 < 2 ∧ 2 < 5 ∧
      List.Chain' (fun a b => lastN 2 a = b.take 2)
        ["AAAAA".toList, "AABBB".toList, "BBBBC".toList, "BCCCC".toList, "CCC".toList] :=
  ⟨by decide, by decide,
    chunk_consecutive_overlap "AAAAABBBBBCCCCC".toList 5 2 (by decide) (by decide)
      ["AAAAA".toList, "AABBB".toList, "BBBBC".toList, "BCCCC".toList, "CCC".toList] rfl⟩

theorem chunkGo_drop_join (size ov : Nat) (hov : ov < size) :
    ∀ fuel (doc : List Char), doc.length ≤ fuel + size →
      ((chunkGo size ov fuel doc).map (fun c => c.drop ov)).flatten = doc.drop ov := by
  intro fuel
  induction fuel with
  | zero => intro doc _; simp [chunkGo]
  | succ fuel ih =>
      intro doc h
      simp only [chunkGo]
      by_cases hle : doc.length ≤ size
      · simp [hle]
      · rw [if_neg hle]
        have hrest : (doc.drop (size - ov)).length ≤ fuel + size := by
          rw [List.length_drop]; omega
        rw [List.map_cons, List.flatten_cons, ih (doc.drop (size - ov)) hrest,
          List.drop_take, List.drop_drop]
        have h1 : size - ov + ov = size := by omega
        have h2 : ov + (size - ov) = size := by omega
        simp only [h1, h2]
        have h3 : (doc.drop ov).take (size - ov) ++ (doc.drop ov).drop (size - ov)
            = doc.drop ov := List.take_append_drop ..
        have h4 : (doc.drop ov).drop (size - ov) = doc.drop size := by
          rw [List.drop_drop]
          simp only [h1, h2]
        rw [← h4]
        exact h3

/-- C2: round-trip property — re-concatenating the chunks of chunk(D,
chunk_size, overlap), with the declared overlap removed from the front of
every chunk after the first, reproduces the document text exactly. -/
theorem chunk_roundTrip (doc : List Char) (size ov : Nat)
    (hpos : 0 < ov) (hov : ov < size) (cs : List (List Char))
    (hcs : chunk doc size ov = .ok cs) :
    stripJoin ov cs = doc := by
  rw [chunk, if_neg (by omega)] at hcs
  cases hcs
  cases hfuel : doc.length with
  | zero =>
      have : doc = [] := List.length_eq_zero.mp hfuel
      subst this
      simp [chunkGo, stripJoin]
  | succ fuel =>
      simp only [chunkGo]
      by_cases hle : doc.length ≤ size
      · rw [if_pos hle]; simp [stripJoin]
      · rw [if_neg hle, stripJoin]
        have hrest : (doc.drop (size - ov)).length ≤ fuel + size := by
          rw [List.length_drop]; omega
        rw [chunkGo_drop_join size ov hov fuel (doc.drop (size - ov)) hrest,
          List.drop_drop]
        have h1 : size - ov + ov = size := by omega
        rw [h1, List.take_append_drop]

theorem chunk_roundTrip_witness :
    0 < 2 ∧ 2 < 5 ∧
      stripJoin 2 ["AAAAA".toList, "AABBB".toList, "BBBBC".toList, "BCCCC".toList,
        "CCC".toList] = "AAAAABBBBBCCCCC".toList :=
  ⟨by decide, by decide,
    chunk_roundTrip "AAAAABBBBBCCCCC".toList 5 2 (by decide) (by decide)
      ["AAAAA".toList, "AABBB".toList, "BBBBC".toList, "BCCCC".toList, "CCC".toList] rfl⟩

/-- C3: whenever chunk_size ≤ overlap, chunk fails with ConfigurationError
before producing any chunk; being a total function it never loops and never
returns a partial chunk sequence. -/
theorem chunk_config_error (doc : List Char) (size ov : Nat) (h : size ≤ ov) :
    chunk doc size ov = .error .configurationError := by
  rw [chunk, if_pos h]

theorem chunk_config_error_witness :
    5 ≤ 5 ∧ chunk "AAAAABBBBBCCCCC".toList 5 5 = .error .configurationError :=
  ⟨by decide, chunk_config_error "AAAAABBBBBCCCCC".toList 5 5 (by decide)⟩

/-- C4 counterexample: on the document AAAAABBBBBCCCCC with chunk_size 5 and
overlap 2 the chunker does not return the chunk list of the spec fixture.
No chunker can: those four chunks strip-join to an 11-character string, so
the fixture contradicts the round-trip property the spec also demands. -/
theorem chunk_fixture_cex :
    chunk "AAAAABBBBBCCCCC".toList 5 2 ≠
      .ok ["AAAAA".toList, "AABBB".toList, "BBCCC".toList, "CC".toList] := by
  intro h
  have h2 : chunkGo 5 2 ("AAAAABBBBBCCCCC".toList).length "AAAAABBBBBCCCCC".toList =
      ["AAAAA".toList, "AABBB".toList, "BBCCC".toList, "CC".toList] := by
    have h3 := h
    rw [chunk, if_neg (by decide)] at h3
    exact Except.ok.inj h3
  exact absurd h2 (by decide)

/-- C4 amended: on the document AAAAABBBBBCCCCC with chunk_size 5 and
overlap 2 the sliding-window chunker returns exactly
[AAAAA, AABBB, BBBBC, BCCCC, CCC]: windows of width 5 advancing by 3. -/
theorem chunk_fixture_amended :
    chunk "AAAAABBBBBCCCCC".toList 5 2 =
      .ok ["AAAAA".toList, "AABBB".toList, "BBBBC".toList, "BCCCC".toList, "CCC".toList] := by
  rfl

/-! ## Retriever theorems -/

theorem rankRel_total (a b : Scored) : rankRel a b ∨ rankRel b a := by
  unfold rankRel; omega

theorem rankRel_trans (a b c : Scored) (h1 : rankRel a b) (h2 : rankRel b c) :
    rankRel a c := by
  unfold rankRel at h1 h2 ⊢; omega

theorem length_insertScored (x : Scored) (l : List Scored) :
    (insertScored x l).length = l.length + 1 := by
  induction l with
  | nil => rfl
  | cons y ys ih =>
      simp only [insertScored]
      by_cases h : rankRel x y
      · rw [if_pos h]; rfl
      · rw [if_neg h]; simp [ih]

theorem length_sortScored (l : List Scored) :
    (sortScored l).length = l.length := by
  induction l with
  | nil => rfl
  | cons x xs ih => simp [sortScored, length_insertScored, ih]

theorem mem_insertScored (a x : Scored) (l : List Scored) :
    a ∈ insertScored x l ↔ a = x ∨ a ∈ l := by
  induction l with
  | nil => simp [insertScored]
  | cons y ys ih =>
      simp only [insertScored]
      by_cases h : rankRel x y
      · rw [if_pos h]; simp
      · rw [if_neg h]; simp [ih]; tauto

theorem pairwise_insertScored (x : Scored) (l : List Scored)
    (hl : List.Pairwise rankRel l) :
    List.Pairwise rankRel (insertScored x l) := by
  induction l with
  | nil => simp [insertScored]
  | cons y ys ih =>
      simp only [insertScored]
      rcases List.pairwise_cons.mp hl with ⟨hy, hys⟩
      by_cases h : rankRel x y
      · rw [if_pos h]
        refine List.pairwise_cons.mpr ⟨?_, hl⟩
        intro b hb
        rcases List.mem_cons.mp hb with rfl | hb
        · exact h
        · exact rankRel_trans x y b h (hy b hb)
      · rw [if_neg h]
        refine List.pairwise_cons.mpr ⟨?_, ih hys⟩
        intro b hb
        rcases (mem_insertScored b x ys).mp hb with hbx | hb
        · rw [hbx]
          rcases rankRel_total x y with hxy | hyx
          · exact absurd hxy h
          · exact hyx
        · exact hy b hb

theorem pairwise_sortScored (l : List Scored) :
    List.Pairwise rankRel (sortScored l) := by
  induction l with
  | nil => simp [sortScored]
  | cons x xs ih => exact pairwise_insertScored x (sortScored xs) ih

/-- C5: retrieve never errors: it is a total function; when k is at least
the index size exactly index_size results are returned (k is clamped,
never fewer results), and on an empty store the result is the empty
sequence. -/
theorem retrieve_clamps (q : List Char) (k : Nat) (f : List Char → List Int)
    (store : Store) (hk : 0 < k) :
    (retrieve q k f store).length = min k store.entries.length ∧
      (store.entries.length ≤ k →
        (retrieve q k f store).length = store.entries.length) ∧
      (store.entries = [] → retrieve q k f store = []) := by
  have hk' : 0 < k := hk
  have hlen : (retrieve q k f store).length = min k store.entries.length := by
    rw [retrieve, List.length_take, length_sortScored]
    simp [scoreAll]
  refine ⟨hlen, ?_, ?_⟩
  · intro hle; rw [hlen]; omega
  · intro hnil; rw [retrieve, hnil]; simp [scoreAll, sortScored]

theorem retrieve_clamps_witness :
    0 < 3 ∧
      ((retrieve "anything".toList 3 (fun _ => [1]) { dim := 1, entries := [] }).length
          = min 3 (Store.entries { dim := 1, entries := [] }).length ∧
        ((Store.entries { dim := 1, entries := [] }).length ≤ 3 →
          (retrieve "anything".toList 3 (fun _ => [1]) { dim := 1, entries := [] }).length
            = (Store.entries { dim := 1, entries := [] }).length) ∧
        (Store.entries { dim := 1, entries := [] } = [] →
          retrieve "anything".toList 3 (fun _ => [1]) { dim := 1, entries := [] } = [])) :=
  ⟨by decide,
    retrieve_clamps "anything".toList 3 (fun _ => [1]) { dim := 1, entries := [] }
      (by decide)⟩

/-- C6: every retrieval result is sorted in descending order of similarity
score, and entries with equal scores appear in ingestion order (stable,
first-indexed wins); retrieve is a pure function of its arguments, so two
retrievals of the same query against the same store state return the same
ordered sequence. -/
theorem retrieve_sorted_stable (q : List Char) (k : Nat)
    (f : List Char → List Int) (store : Store) :
    List.Pairwise
      (fun a b => b.score ≤ a.score ∧ (b.score = a.score → a.pos ≤ b.pos))
      (retrieve q k f store) := by
  have h := pairwise_sortScored (scoreAll (f q) store.entries)
  exact List.Pairwise.sublist (List.take_sublist ..) h

/-! ## Prompt Assembler theorems -/

/-- C7: whenever the context placeholder or the question placeholder is
absent from the template, validation already fails with TemplateError at
configuration time, and assemble fails with TemplateError for every
retrieval result and question — the store contents are never consulted and
no Prompt is ever produced. -/
theorem assemble_template_error (template : List Char)
    (h : containsSub ctxPlaceholder template = false ∨
      containsSub questionPlaceholder template = false) :
    validateTemplate template = .error .templateError ∧
      ∀ (rr : List Scored) (question : List Char),
        assemble template rr question = .error .templateError := by
  have hv : validateTemplate template = .error .templateError := by
    rw [validateTemplate]
    rcases h with h | h <;> rw [h] <;> simp
  refine ⟨hv, ?_⟩
  intro rr question
  rw [assemble, hv]

theorem assemble_template_error_witness :
    (containsSub ctxPlaceholder "no placeholders here".toList = false ∨
      containsSub questionPlaceholder "no placeholders here".toList = false) ∧
      (validateTemplate "no placeholders here".toList = .error .templateError ∧
        ∀ (rr : List Scored) (question : List Char),
          assemble "no placeholders here".toList rr question = .error .templateError) :=
  ⟨Or.inl (by decide), assemble_template_error "no placeholders here".toList
    (Or.inl (by decide))⟩

/-! ## Index Writer theorems -/

theorem writeChunks_preserves (f : List Char → List Int) (cs : List Chunk) :
    ∀ (s s' : Store) (n : Nat), (∀ e ∈ s.entries, e.emb.length = s.dim) →
      writeChunks f cs s = .ok (s', n) →
      ∀ e ∈ s'.entries, e.emb.length = s'.dim := by
  induction cs with
  | nil =>
      intro s s' n hs h
      simp only [writeChunks] at h
      cases h
      exact hs
  | cons c cs ih =>
      intro s s' n hs h
      simp only [writeChunks] at h
      by_cases hd : (f c.text).length = s.dim
      · rw [if_pos hd] at h
        cases hw : writeChunks f cs (addEntry s c (f c.text)) with
        | ok p =>
            rw [hw] at h
            cases h
            refine ih (addEntry s c (f c.text)) p.1 p.2 ?_ (by rw [hw])
            intro e he
            simp only [addEntry, List.mem_append, List.mem_singleton] at he
            rcases he with he | rfl
            · exact hs e he
            · exact hd
        | error e => rw [hw] at h; cases h
      · rw [if_neg hd] at h; cases h

theorem writeChunks_mismatch (f : List Char → List Int) (cs : List Chunk) :
    ∀ s : Store, (∃ c ∈ cs, (f c.text).length ≠ s.dim) →
      writeChunks f cs s = .error .dimensionMismatch := by
  induction cs with
  | nil => intro s hex; simp at hex
  | cons c cs ih =>
      intro s hex
      simp only [writeChunks]
      by_cases hd : (f c.text).length = s.dim
      · rw [if_pos hd]
        have hex' : ∃ c' ∈ cs, (f c'.text).length ≠ (addEntry s c (f c.text)).dim := by
          rcases hex with ⟨c', hc', hne⟩
          rcases List.mem_cons.mp hc' with rfl | hc'
          · exact absurd hd hne
          · exact ⟨c', hc', hne⟩
        rw [ih (addEntry s c (f c.text)) hex']
      · rw [if_neg hd]

/-- C8: if every entry already in the store has the declared
dimensionality, then any successful index run preserves that invariant —
every written IndexEntry has the declared dimensionality — and any chunk
list containing an embedding of the wrong dimensionality makes the run
fail with the dimension-mismatch error, before that entry is written. -/
theorem indexWriter_dim_invariant (f : List Char → List Int)
    (cs : List Chunk) (s : Store)
    (hs : ∀ e ∈ s.entries, e.emb.length = s.dim) :
    (∀ (s' : Store) (n : Nat), writeChunks f cs s = .ok (s', n) →
      ∀ e ∈ s'.entries, e.emb.length = s'.dim) ∧
      ((∃ c ∈ cs, (f c.text).length ≠ s.dim) →
        writeChunks f cs s = .error .dimensionMismatch) :=
  ⟨fun s' n h => writeChunks_preserves f cs s s' n hs h,
    fun hex => writeChunks_mismatch f cs s hex⟩

theorem indexWriter_dim_invariant_witness :
    (∀ e ∈ (Store.entries { dim := 2, entries := [] }), e.emb.length = 2) ∧
      ((∀ (s' : Store) (n : Nat),
          writeChunks (fun _ => [1, 2]) [{ text := "ab".toList, ordinal := 0, meta := [] }]
            { dim := 2, entries := [] } = .ok (s', n) →
          ∀ e ∈ s'.entries, e.emb.length = s'.dim) ∧
        ((∃ c ∈ [({ text := "ab".toList, ordinal := 0, meta := [] } : Chunk)],
            ((fun (_ : List Char) => [(1 : Int), 2]) c.text).length ≠ 2) →
          writeChunks (fun _ => [1, 2]) [{ text := "ab".toList, ordinal := 0, meta := [] }]
            { dim := 2, entries := [] } = .error .dimensionMismatch)) :=
  ⟨by intro e he; simp at he,
    indexWriter_dim_invariant (fun _ => [1, 2])
      [{ text := "ab".toList, ordinal := 0, meta := [] }] { dim := 2, entries := [] }
      (by intro e he; simp at he)⟩

/-! ## Chunk metadata theorems -/

theorem setChunkMeta_other (m : List (String × String)) :
    ∀ (i j : Nat) (cs : List Chunk), i ≠ j →
      (setChunkMeta m i cs).get? j = cs.get? j := by
  intro i
  induction i with
  | zero =>
      intro j cs hij
      cases cs with
      | nil => rfl
      | cons c cs =>
          cases j with
          | zero => exact absurd rfl hij
          | succ j => rfl
  | succ i ih =>
      intro j cs hij
      cases cs with
      | nil => rfl
      | cons c cs =>
          cases j with
          | zero => rfl
          | succ j =>
              simp only [setChunkMeta, List.get?_cons_succ]
              exact ih j cs (fun h => hij (by rw [h]))

/-- C9: every Chunk produced by the chunking pipeline carries a copy of its
parent Document metadata mapping (so no chunk has a metadata field absent
from its source document), and replacing the metadata of one chunk leaves
the metadata of every other chunk — and the parent Document value —
unchanged. -/
theorem chunk_metadata_inherited (doc : Document) (size ov : Nat)
    (cs : List Chunk) (hcs : chunkDocument doc size ov = .ok cs) :
    (∀ c ∈ cs, c.meta = doc.meta) ∧
      (∀ (i j : Nat) (m : List (String × String)), i ≠ j →
        (setChunkMeta m i cs).get? j = cs.get? j) := by
  constructor
  · intro c hc
    rw [chunkDocument] at hcs
    cases hp : chunk doc.text size ov with
    | error e => rw [hp] at hcs; cases hcs
    | ok pieces =>
        rw [hp] at hcs
        simp only [Except.map] at hcs
        cases hcs
        simp only [List.mem_map] at hc
        rcases hc with ⟨p, _, rfl⟩
        rfl
  · intro i j m hij
    exact setChunkMeta_other m i j cs hij

theorem chunk_metadata_inherited_witness :
    chunkDocument fixtureDoc 5 2 = .ok fixtureDocChunks ∧
      ((∀ c ∈ fixtureDocChunks, c.meta = fixtureDoc.meta) ∧
        (∀ (i j : Nat) (m : List (String × String)), i ≠ j →
          (setChunkMeta m i fixtureDocChunks).get? j = fixtureDocChunks.get? j)) :=
  ⟨rfl, chunk_metadata_inherited fixtureDoc 5 2 fixtureDocChunks rfl⟩

/-! ## Session handling theorem -/

/-- C10: for both retrieveAndGenerate and retrieveAndGenerateWithTemplate,
the request carries a sessionId field exactly when the sessionId argument
is truthy; an empty-string session identifier is silently dropped (the
request equals the one built with no session at all), and stripping the
sessionId field yields identical payloads in the two branches. -/
theorem sessionId_truthy (input kbId : String) (sessionId : Option String)
    (promptTemplate model_id region_id : String) :
    ((retrieveAndGenerate input kbId sessionId model_id region_id).sessionId ≠ none ↔
        pyTruthy sessionId = true) ∧
      retrieveAndGenerate input kbId (some "") model_id region_id =
        retrieveAndGenerate input kbId none model_id region_id ∧
      dropSession (retrieveAndGenerate input kbId sessionId model_id region_id) =
        dropSession (retrieveAndGenerate input kbId none model_id region_id) ∧
      ((retrieveAndGenerateWithTemplate input kbId sessionId promptTemplate
          model_id region_id).sessionId ≠ none ↔ pyTruthy sessionId = true) ∧
      retrieveAndGenerateWithTemplate input kbId (some "") promptTemplate
          model_id region_id =
        retrieveAndGenerateWithTemplate input kbId none promptTemplate
          model_id region_id ∧
      dropSession (retrieveAndGenerateWithTemplate input kbId sessionId
          promptTemplate model_id region_id) =
        dropSession (retrieveAndGenerateWithTemplate input kbId none
          promptTemplate model_id region_id) := by
  refine ⟨?_, ?_, ?_, ?_, ?_, ?_⟩
  · rw [retrieveAndGenerate]
    cases sessionId with
    | none => simp [pyTruthy]
    | some s =>
        by_cases hs : s = ""
        · subst hs; simp [pyTruthy]
        · have ht : pyTruthy (some s) = true := by
            simp [pyTruthy]; exact fun h => hs h
          rw [if_pos ht]
          simp [ht]
  · rfl
  · rw [retrieveAndGenerate, retrieveAndGenerate]
    by_cases ht : pyTruthy sessionId = true
    · rw [if_pos ht]; rfl
    · rw [if_neg ht]; rfl
  · rw [retrieveAndGenerateWithTemplate]
    cases sessionId with
    | none => simp [pyTruthy]
    | some s =>
        by_cases hs : s = ""
        · subst hs; simp [pyTruthy]
        · have ht : pyTruthy (some s) = true := by
            simp [pyTruthy]; exact fun h => hs h
          rw [if_pos ht]
          simp [ht]
  · rfl
  · rw [retrieveAndGenerateWithTemplate, retrieveAndGenerateWithTemplate]
    by_cases ht : pyTruthy sessionId = true
    · rw [if_pos ht]; rfl
    · rw [if_neg ht]; rfl

end RAG
